import Mathlib

/-!
Verification of the quota-aware backfill loop of `better_bets_app`
(`src/pull_odds_history.py`, `src/get_data.py`, `src/S3IO.py`) against its
natural-language specification.

Dates are modelled by their proleptic-Gregorian ordinals (Python
`date.toordinal`), payloads by an abstract type `π`, and the upstream HTTP
layer by an environment giving, for each day, either no response (a network
error, i.e. `requests.get` raising) or a response with a status code, an
optional parsed `X-Requests-Remaining` header (`none` models a missing or
unparsable header, both of which raise in the source), and an optional
deserialized body (`none` models `response.json()` raising).
-/

namespace BetterBets

/-- The calendar arithmetic of Python `datetime.date`: leap-year test. -/
def isLeap (y : Nat) : Bool := y % 4 == 0 && (y % 100 != 0 || y % 400 == 0)

/-- Length of each month in a non-leap year, indexed 1..12 (Python
`_DAYS_IN_MONTH`). -/
def daysInMonth (m : Nat) : Nat :=
  [0, 31, 28, 31, 30, 31, 30, 31, 31, 30, 31, 30, 31].getD m 0

/-- Days in a non-leap year before the first of month `m` (Python
`_DAYS_BEFORE_MONTH`). -/
def daysBeforeMonth (m : Nat) : Nat :=
  [0, 0, 31, 59, 90, 120, 151, 181, 212, 243, 273, 304, 334].getD m 0

/-- Days before January 1st of year `y` (Python `_days_before_year`). -/
def daysBeforeYear (y : Nat) : Nat :=
  (y - 1) * 365 + (y - 1) / 4 - (y - 1) / 100 + (y - 1) / 400

/-- Python `date(y, m, d).toordinal()`: day number with 0001-01-01 as day 1. -/
def toordinal (y m d : Nat) : Nat :=
  daysBeforeYear y + daysBeforeMonth m
    + (if 2 < m && isLeap y then 1 else 0) + d

/-- Python `date.fromordinal` (`_ord2ymd`): ordinal to (year, month, day). -/
def fromordinal (ord : Nat) : Nat × Nat × Nat :=
  let n := ord - 1
  let n400 := n / 146097
  let n := n % 146097
  let n100 := n / 36524
  let n := n % 36524
  let n4 := n / 1461
  let n := n % 1461
  let n1 := n / 365
  let n := n % 365
  let year := n400 * 400 + 1 + n100 * 100 + n4 * 4 + n1
  if n1 == 4 || n100 == 4 then
    (year - 1, 12, 31)
  else
    let leap := n1 == 3 && (n4 != 24 || n100 == 3)
    let month := (n + 50) >>> 5
    let preceding := daysBeforeMonth month + (if 2 < month && leap then 1 else 0)
    if n < preceding then
      let month1 := month - 1
      let preceding1 := preceding - (daysInMonth month1 + (if month1 == 2 && leap then 1 else 0))
      (year, month1, n - preceding1 + 1)
    else
      (year, month, n - preceding + 1)

/-- Zero-padded two-digit rendering, as in `date.isoformat`. -/
def pad2 (n : Nat) : String :=
  if n < 10 then "0" ++ toString n else toString n

/-- Zero-padded four-digit rendering, as in `date.isoformat`. -/
def pad4 (n : Nat) : String :=
  if n < 10 then "000" ++ toString n
  else if n < 100 then "00" ++ toString n
  else if n < 1000 then "0" ++ toString n
  else toString n

/-- Python `str(day)` for a `date`: the ISO `YYYY-MM-DD` rendering of the
date with the given ordinal. -/
def isoDate (ord : Nat) : String :=
  match fromordinal ord with
  | (y, m, d) => pad4 y ++ "-" ++ pad2 m ++ "-" ++ pad2 d

/-- `pull_odds_history.py` line 77: `odds_date_format = str(day) + "T12:00:00Z"`. -/
def oddsDateFormat (ord : Nat) : String := isoDate ord ++ "T12:00:00Z"

/-- `pull_odds_history.py` line 87:
`nba_path = f"odds_data/raw_data/nba/nba_{day}.json"`. -/
def nbaPath (ord : Nat) : String :=
  "odds_data/raw_data/nba/nba_" ++ isoDate ord ++ ".json"

/-- `pull_odds_history.time_list`: the translation of
`[date.fromordinal(i) for i in range(start_dt.toordinal(), end_dt.toordinal() + 1)]`,
with dates represented by their ordinals. -/
def time_list (start_dt end_dt : Nat) : List Nat :=
  List.range' start_dt (end_dt + 1 - start_dt)

/-- One upstream HTTP response, as seen by `OddsData.get_data`.
`requestsRemainingHeader = none` models a missing (or unparsable)
`X-Requests-Remaining` header, whose access in the source raises;
`body = none` models a body on which `response.json()` raises. -/
structure Response (π : Type) where
  statusCode : Nat
  requestsRemainingHeader : Option Int
  body : Option π

/-- Embedding of `OddsData.get_data` (get_data.py lines 80-95).  The `Int`
argument and first component are the instance field `_request_remaining`
before and after the call.  `Except.error ()` models an exception escaping
the method; in every raising path the field keeps its prior value, because
in the source the raise happens before the assignment to the field.
On a non-2xx status the source logs, updates the field from the header and
returns Python `None` (modelled `Except.ok none`) without raising; on a 200
status it first deserializes the body (`response.json()`, which may raise)
and only then reads the header. -/
def get_data {π : Type} (r : Response π) (request_remaining : Int) :
    Int × Except Unit (Option π) :=
  if r.statusCode ≠ 200 then
    match r.requestsRemainingHeader with
    | some q => (q, Except.ok none)
    | none => (request_remaining, Except.error ())
  else
    match r.body with
    | none => (request_remaining, Except.error ())
    | some p =>
      match r.requestsRemainingHeader with
      | some q => (q, Except.ok (some p))
      | none => (request_remaining, Except.error ())

/-- The environment of one run: per-day upstream response (`none` = network
error, `requests.get` raises) and per-day outcome of the `load_json`
persist call (`true` = the call returns, `false` = it raises). -/
structure Env (π : Type) where
  response : Nat → Option (Response π)
  persistOk : Nat → Bool

/-- Embedding of `OddsData.get_odds_history` for a given day: a network
error raises before any response exists; otherwise the call is `get_data`
on the day's response. -/
def get_odds_history {π : Type} (env : Env π) (day : Nat) (request_remaining : Int) :
    Int × Except Unit (Option π) :=
  match env.response day with
  | none => (request_remaining, Except.error ())
  | some r => get_data r request_remaining

/-- The log lines the `__main__` block of `pull_odds_history.py` can emit,
one constructor per `logging.info` / `logging.error` call site. -/
inductive LogLine where
  | pullingDays (n : Nat)
  | quotaBreached (remaining : Int)
  | errorCeiling (day : Nat)
  | stoppingProcess (day : Nat)
  | fetchError (day : Nat)
  | persistingData (day : Nat)
  | persistSuccess (day : Nat)
  | persistError (day : Nat)
  | processCompleted
deriving DecidableEq, Repr

/-- The mutable state of one run of the `__main__` block:
`remaining_reqs` and `number_errors` are the script's local variables,
`request_remaining` is the `OddsData._request_remaining` field, `store` is
the ordered list of S3 puts performed (key, serialized payload — `none` is
Python `None`, serialized as JSON `null`), `fetches` records each
`get_odds_history` invocation with the timestamp argument passed to it,
`persistCalls` records each `load_json` invocation, and `logs` the emitted
log lines. -/
structure RunState (π : Type) where
  remaining_reqs : Int
  request_remaining : Int
  number_errors : Nat
  store : List (String × Option π)
  fetches : List (Nat × String)
  persistCalls : List Nat
  logs : List LogLine

/-- State at the top of the loop: both counters hold the value returned by
`odds.get_remaining_req()` after `OddsData.__init__`, the error count is 0
and nothing has been fetched, persisted or logged by the loop yet. -/
def initState {π : Type} (q0 : Int) : RunState π :=
  ⟨q0, q0, 0, [], [], [], []⟩

/-- The two log lines of the error-ceiling check (lines 72-74): emitted when
`number_errors >= 5`; the source does not break or continue there. -/
def ceilingLogs (numberErrors : Nat) (day : Nat) : List LogLine :=
  if 5 ≤ numberErrors then [LogLine.errorCeiling day, LogLine.stoppingProcess day] else []

/-- One iteration of the loop body after the quota breaker (lines 72-95):
the error-ceiling check (logs only), the fetch inside `try` (on exception:
log, increment `number_errors`, `continue`), and on fetch return the
persist inside `try` (on exception: log, increment `number_errors`). -/
def processDay {π : Type} (env : Env π) (day : Nat) (st : RunState π) : RunState π :=
  let st1 := { st with logs := st.logs ++ ceilingLogs st.number_errors day }
  let st2 := { st1 with fetches := st1.fetches ++ [(day, oddsDateFormat day)] }
  match get_odds_history env day st2.request_remaining with
  | (rr, Except.error _) =>
    { st2 with request_remaining := rr,
               number_errors := st2.number_errors + 1,
               logs := st2.logs ++ [LogLine.fetchError day] }
  | (rr, Except.ok payload) =>
    let st3 := { st2 with request_remaining := rr,
                          remaining_reqs := rr,
                          logs := st2.logs ++ [LogLine.persistingData day],
                          persistCalls := st2.persistCalls ++ [day] }
    if env.persistOk day then
      { st3 with store := st3.store ++ [(nbaPath day, payload)],
                 logs := st3.logs ++ [LogLine.persistSuccess day] }
    else
      { st3 with number_errors := st3.number_errors + 1,
                 logs := st3.logs ++ [LogLine.persistError day] }

/-- The `for day in days_list` loop (lines 66-95): before each day the quota
breaker (lines 68-70) runs and `break`s when `remaining_reqs <= 400`;
otherwise the day is processed and the loop moves to the next day. -/
def runDays {π : Type} (env : Env π) : List Nat → RunState π → RunState π
  | [], st => st
  | day :: rest, st =>
    if st.remaining_reqs ≤ 400 then
      { st with logs := st.logs ++ [LogLine.quotaBreached st.remaining_reqs] }
    else
      runDays env rest (processDay env day st)

/-- The whole `__main__` run after argument parsing: build the day list,
log the opening line, run the loop from the initial state, and log
`"Process Completed."` (line 96, reached both after a break and after the
loop exhausts the range). -/
def fullRun {π : Type} (env : Env π) (q0 : Int) (from_dt to_dt : Nat) : RunState π :=
  let days := time_list from_dt to_dt
  let st0 : RunState π := ⟨q0, q0, 0, [], [], [], [LogLine.pullingDays days.length]⟩
  let stF := runDays env days st0
  { stF with logs := stF.logs ++ [LogLine.processCompleted] }

/-- Embedding of the `retry` decorator of S3IO.py (lines 19-32), applied to
a wrapped function whose `i`-th invocation has outcome `f i`: up to `times`
guarded attempts whose exceptions are swallowed, then one final unguarded
call whose result (or exception) is returned as-is.  The first `Nat`
argument is the index of the next invocation, the second the number of
guarded attempts left. -/
def retryGo {E A : Type} (f : Nat → Except E A) : Nat → Nat → Except E A
  | i, 0 => f i
  | i, Nat.succ k =>
    match f i with
    | Except.ok a => Except.ok a
    | Except.error _ => retryGo f (i + 1) k

/-- `retry(times)(func)()`: run the decorated call. -/
def retryCall {E A : Type} (times : Nat) (f : Nat → Except E A) : Except E A :=
  retryGo f 0 times

/-- Number of invocations of the wrapped function performed by `retryGo`. -/
def retryGoCalls {E A : Type} (f : Nat → Except E A) : Nat → Nat → Nat
  | _, 0 => 1
  | i, Nat.succ k =>
    match f i with
    | Except.ok _ => 1
    | Except.error _ => 1 + retryGoCalls f (i + 1) k

/-- Number of invocations of the wrapped function performed by
`retry(times)(func)()`. -/
def retryNumCalls {E A : Type} (times : Nat) (f : Nat → Except E A) : Nat :=
  retryGoCalls f 0 times

/-- `S3IO.load_json` is decorated `@retry(times=5)`; given the outcomes of
the successive underlying S3 put attempts, this is how many times the body
(serialize + put) executes during one `load_json` call. -/
def load_json_put_attempts (putOutcome : Nat → Except Unit Unit) : Nat :=
  retryNumCalls 5 putOutcome

/-- Blob-store semantics of a list of puts: each `(key, value)` put
overwrites the value at `key`, later puts shadowing earlier ones. -/
def applyWrites {V : Type} : List (String × V) → (String → Option V) → String → Option V
  | [], σ => σ
  | kv :: rest, σ => applyWrites rest (fun k => if k = kv.1 then some kv.2 else σ k)

/-- The last value written to `k` by a list of puts, if any. -/
def lastWrite {V : Type} : List (String × V) → String → Option V
  | [], _ => none
  | kv :: rest, k =>
    match lastWrite rest k with
    | some v => some v
    | none => if k = kv.1 then some kv.2 else none

/-- An environment in which every day's fetch returns HTTP 200 with header
value `q day` and body `p day`, and every persist succeeds: a run with no
failures. -/
def goodEnv {π : Type} (q : Nat → Int) (p : Nat → π) : Env π :=
  ⟨fun d => some ⟨200, some (q d), some (p d)⟩, fun _ => true⟩

/-- The prefix of the day list actually processed in a no-failure run that
starts with quota `quota`: processing stops at the first breaker check at
which the quota (updated to `q d` after each processed day `d`) is at or
below 400. -/
def takenDays (q : Nat → Int) : Int → List Nat → List Nat
  | _, [] => []
  | quota, d :: rest =>
    if quota ≤ 400 then [] else d :: takenDays q (q d) rest

/-- In a no-failure environment, a processed day extends the fetch trace,
the persist trace and the store by its own entries, sets both quota
variables to the day's header value and leaves the error count alone. -/
lemma processDay_goodEnv {π : Type} (q : Nat → Int) (p : Nat → π) (day : Nat)
    (st : RunState π) :
    processDay (goodEnv q p) day st =
      { st with request_remaining := q day,
                remaining_reqs := q day,
                fetches := st.fetches ++ [(day, oddsDateFormat day)],
                persistCalls := st.persistCalls ++ [day],
                store := st.store ++ [(nbaPath day, some (p day))],
                logs := st.logs ++ ceilingLogs st.number_errors day
                  ++ [LogLine.persistingData day, LogLine.persistSuccess day] } := by
  simp [processDay, get_odds_history, get_data, goodEnv]

/-- Characterization of the loop on a no-failure environment: exactly the
days of `takenDays` are fetched and persisted, in order, and the error
count never moves. -/
lemma runDays_goodEnv {π : Type} (q : Nat → Int) (p : Nat → π) (days : List Nat) :
    ∀ st : RunState π,
      ((runDays (goodEnv q p) days st).store
          = st.store ++ (takenDays q st.remaining_reqs days).map (fun d => (nbaPath d, some (p d))))
      ∧ ((runDays (goodEnv q p) days st).fetches
          = st.fetches ++ (takenDays q st.remaining_reqs days).map (fun d => (d, oddsDateFormat d)))
      ∧ (runDays (goodEnv q p) days st).number_errors = st.number_errors := by
  induction days with
  | nil => intro st; simp [runDays, takenDays]
  | cons day rest ih =>
    intro st
    by_cases hq : st.remaining_reqs ≤ 400
    · simp [runDays, hq, takenDays]
    · have h := ih (processDay (goodEnv q p) day st)
      rw [processDay_goodEnv] at h
      obtain ⟨h1, h2, h3⟩ := h
      simp only [runDays, if_neg hq, processDay_goodEnv]
      simp only [takenDays, if_neg hq, List.map_cons]
      refine ⟨?_, ?_, ?_⟩
      · rw [h1]; simp
      · rw [h2]; simp
      · rw [h3]

/-- Once the quota is at or below the floor, no day at all is taken. -/
lemma takenDays_stop {q : Nat → Int} {quota : Int} (h : quota ≤ 400) :
    ∀ days : List Nat, takenDays q quota days = [] := by
  intro days; cases days <;> simp [takenDays, h]

/-- When every header value stays above the floor, every day is taken. -/
lemma takenDays_all {q : Nat → Int} (days : List Nat) :
    ∀ quota : Int, 400 < quota → (∀ d ∈ days, 400 < q d) →
      takenDays q quota days = days := by
  induction days with
  | nil => intro quota _ _; simp [takenDays]
  | cons d rest ih =>
    intro quota hq hall
    simp only [takenDays, if_neg (not_le.mpr hq)]
    rw [ih (q d) (hall d (by simp)) (fun x hx => hall x (by simp [hx]))]

/-- When the header value drops to or below the floor exactly after the
`k`-th taken day, the taken days are the first `k` days of the list. -/
lemma takenDays_eq_take (q : Nat → Int) (days : List Nat) :
    ∀ (quota : Int) (k : Nat), 1 ≤ k → k ≤ days.length → 400 < quota →
      (∀ i, i + 1 < k → 400 < q (days.getD i 0)) →
      q (days.getD (k - 1) 0) ≤ 400 →
      takenDays q quota days = days.take k := by
  induction days with
  | nil => intro quota k _ _ _ _ _; simp [takenDays]
  | cons d rest ih =>
    intro quota k h1 hk hq hmid hstop
    simp only [takenDays, if_neg (not_le.mpr hq)]
    rcases Nat.lt_or_ge 1 k with hk2 | hk1
    · have hd : 400 < q d := by
        have := hmid 0 (by omega)
        simpa using this
      have hrec := ih (q d) (k - 1) (by omega) (by simp at hk; omega) hd
        (fun i hi => by
          have := hmid (i + 1) (by omega)
          simpa using this)
        (by
          have : (d :: rest).getD (k - 1) 0 = rest.getD (k - 2) 0 := by
            have hk1 : k - 1 = (k - 2) + 1 := by omega
            rw [hk1, List.getD_cons_succ]
          rw [this] at hstop
          have : k - 1 - 1 = k - 2 := by omega
          rw [this]
          exact hstop)
      rw [hrec]
      have : k = (k - 1) + 1 := by omega
      rw [this, List.take_succ_cons]
      simp
    · have hk0 : k = 1 := by omega
      subst hk0
      have : q d ≤ 400 := by simpa using hstop
      rw [takenDays_stop this]
      simp

/-- Whatever the day's outcome, its processing appends exactly one entry
to the fetch trace, carrying the day's timestamp argument. -/
lemma processDay_fetches {π : Type} (env : Env π) (day : Nat) (st : RunState π) :
    (processDay env day st).fetches = st.fetches ++ [(day, oddsDateFormat day)] := by
  simp only [processDay]
  split
  · simp
  · split <;> simp

/-- A processed day invokes `load_json` at most once: the persist trace
either stays (fetch raised) or gains the one day. -/
lemma processDay_persistCalls {π : Type} (env : Env π) (day : Nat) (st : RunState π) :
    (processDay env day st).persistCalls = st.persistCalls
    ∨ (processDay env day st).persistCalls = st.persistCalls ++ [day] := by
  simp only [processDay]
  split
  · left; simp
  · right; split <;> simp

/-- Every fetch entry the loop adds carries the timestamp
`oddsDateFormat` of its own day. -/
lemma runDays_fetch_ts {π : Type} (env : Env π) (days : List Nat) :
    ∀ (st : RunState π) (pr : Nat × String), pr ∈ (runDays env days st).fetches →
      pr ∈ st.fetches ∨ pr.2 = oddsDateFormat pr.1 := by
  induction days with
  | nil => intro st pr h; left; simpa [runDays] using h
  | cons day rest ih =>
    intro st pr h
    by_cases hq : st.remaining_reqs ≤ 400
    · left; simpa [runDays, hq] using h
    · simp only [runDays, if_neg hq] at h
      rcases ih _ pr h with hmem | hts
      · rw [processDay_fetches] at hmem
        rcases List.mem_append.mp hmem with h1 | h2
        · left; exact h1
        · right
          have : pr = (day, oddsDateFormat day) := by simpa using h2
          rw [this]
      · right; exact hts

/-- The days fetched and the days persisted during the loop each form a
sublist of the day list: no day is visited twice. -/
lemma runDays_calls_sublist {π : Type} (env : Env π) (days : List Nat) :
    ∀ st : RunState π, ∃ lf lp : List Nat,
      (runDays env days st).fetches.map Prod.fst = st.fetches.map Prod.fst ++ lf
      ∧ (runDays env days st).persistCalls = st.persistCalls ++ lp
      ∧ lf.Sublist days ∧ lp.Sublist days := by
  induction days with
  | nil =>
    intro st
    exact ⟨[], [], by simp [runDays], by simp [runDays], List.nil_sublist _, List.nil_sublist _⟩
  | cons day rest ih =>
    intro st
    by_cases hq : st.remaining_reqs ≤ 400
    · exact ⟨[], [], by simp [runDays, hq], by simp [runDays, hq],
        List.nil_sublist _, List.nil_sublist _⟩
    · obtain ⟨lf, lp, h1, h2, h3, h4⟩ := ih (processDay env day st)
      rw [processDay_fetches] at h1
      rcases processDay_persistCalls env day st with hp | hp
      · refine ⟨day :: lf, lp, ?_, ?_, ?_, ?_⟩
        · simp only [runDays, if_neg hq]; rw [h1]; simp
        · simp only [runDays, if_neg hq]; rw [h2, hp]
        · exact List.Sublist.cons₂ day h3
        · exact List.Sublist.cons day h4
      · refine ⟨day :: lf, day :: lp, ?_, ?_, ?_, ?_⟩
        · simp only [runDays, if_neg hq]; rw [h1]; simp
        · simp only [runDays, if_neg hq]; rw [h2, hp]; simp
        · exact List.Sublist.cons₂ day h3
        · exact List.Sublist.cons₂ day h4

/-- The retried call makes at most `k + 1` invocations. -/
lemma retryGoCalls_le {E A : Type} (f : Nat → Except E A) :
    ∀ (k i : Nat), retryGoCalls f i k ≤ k + 1 := by
  intro k
  induction k with
  | zero => intro i; simp [retryGoCalls]
  | succ k ih =>
    intro i
    simp only [retryGoCalls]
    cases h : f i with
    | ok a => simp
    | error e =>
      have := ih (i + 1)
      simp only []
      omega

/-- If the first `j` invocations fail and the `j`-th one (zero-based)
succeeds within the guarded attempts, the retried call returns that
success after exactly `j + 1` invocations. -/
lemma retryGo_first_ok {E A : Type} (f : Nat → Except E A) :
    ∀ (k i j : Nat) (a : A), j < k →
      (∀ t, t < j → ∃ e, f (i + t) = Except.error e) →
      f (i + j) = Except.ok a →
      retryGo f i k = Except.ok a ∧ retryGoCalls f i k = j + 1 := by
  intro k
  induction k with
  | zero => intro i j a hj _ _; omega
  | succ k ih =>
    intro i j a hj herr hok
    rcases Nat.eq_zero_or_pos j with h0 | hpos
    · subst h0
      rw [Nat.add_zero] at hok
      simp [retryGo, retryGoCalls, hok]
    · obtain ⟨e, he⟩ := herr 0 hpos
      rw [Nat.add_zero] at he
      have hrec := ih (i + 1) (j - 1) a (by omega)
        (fun t ht => by
          obtain ⟨e', he'⟩ := herr (t + 1) (by omega)
          exact ⟨e', by rw [show i + 1 + t = i + (t + 1) by omega]; exact he'⟩)
        (by rw [show i + 1 + (j - 1) = i + j by omega]; exact hok)
      constructor
      · simp only [retryGo, he]; exact hrec.1
      · simp only [retryGoCalls, he]; omega

/-- If all guarded attempts fail, the final unguarded invocation's result
is returned as-is, after `k + 1` invocations in total. -/
lemma retryGo_all_fail {E A : Type} (f : Nat → Except E A) :
    ∀ (k i : Nat), (∀ t, t < k → ∃ e, f (i + t) = Except.error e) →
      retryGo f i k = f (i + k) ∧ retryGoCalls f i k = k + 1 := by
  intro k
  induction k with
  | zero => intro i _; simp [retryGo, retryGoCalls]
  | succ k ih =>
    intro i herr
    obtain ⟨e, he⟩ := herr 0 (by omega)
    rw [Nat.add_zero] at he
    have hrec := ih (i + 1)
      (fun t ht => by
        obtain ⟨e', he'⟩ := herr (t + 1) (by omega)
        exact ⟨e', by rw [show i + 1 + t = i + (t + 1) by omega]; exact he'⟩)
    constructor
    · simp only [retryGo, he]
      rw [hrec.1, show i + 1 + k = i + (k + 1) by omega]
    · simp only [retryGoCalls, he]; omega

/-- A write list applied to a state reads back as the last write when one
exists and as the underlying state otherwise. -/
lemma applyWrites_eq_lastWrite {V : Type} :
    ∀ (ws : List (String × V)) (σ : String → Option V) (k : String),
      applyWrites ws σ k =
        match lastWrite ws k with
        | some v => some v
        | none => σ k := by
  intro ws
  induction ws with
  | nil => intro σ k; simp [applyWrites, lastWrite]
  | cons kv rest ih =>
    intro σ k
    simp only [applyWrites, lastWrite]
    rw [ih]
    cases h : lastWrite rest k with
    | some v => simp
    | none => by_cases hk : k = kv.1 <;> simp [hk]

/-- Applying the same write list twice is the same as applying it once. -/
lemma applyWrites_idem {V : Type} (ws : List (String × V)) (σ : String → Option V)
    (k : String) :
    applyWrites ws (applyWrites ws σ) k = applyWrites ws σ k := by
  rw [applyWrites_eq_lastWrite, applyWrites_eq_lastWrite]
  cases h : lastWrite ws k with
  | some v => simp
  | none => simp

/-- An environment in which every day's fetch returns HTTP 500 with
`X-Requests-Remaining: 450` and a body on which deserialization would
fail; the persist layer works. -/
def envNon2xx : Env Nat := ⟨fun _ => some ⟨500, some 450, none⟩, fun _ => true⟩

/-- C1: the claim says a non-2xx response counts as a failed fetch —
error counter incremented, no blob written.  The code disagrees: on the
single day 2023-01-15 an HTTP 500 response makes `get_data` return `None`
without raising, so the loop persists a blob whose content is JSON `null`
under the day's key, reports a successful persist, and leaves the error
counter at 0. -/
theorem C1_non2xx_writes_null_blob :
    (fullRun envNon2xx 500 738535 738535).store
      = [("odds_data/raw_data/nba/nba_2023-01-15.json", none)]
    ∧ (fullRun envNon2xx 500 738535 738535).number_errors = 0
    ∧ LogLine.persistSuccess 738535 ∈ (fullRun envNon2xx 500 738535 738535).logs := by
  refine ⟨by decide, by decide, by decide⟩

/-- C2: if the quota counter is at or below the floor (400) when a day's
breaker check runs, the loop stops there: nothing more is fetched or
persisted and the state — in particular the blobs already written — is
unchanged except for the breach log line.  Moreover, in a no-failure run
whose quota drops to or below the floor after day `k`, exactly `k`
artifacts exist and only the first `k` days were fetched. -/
theorem C2_quota_breaker :
    (∀ (π : Type) (env : Env π) (day : Nat) (rest : List Nat) (st : RunState π),
        st.remaining_reqs ≤ 400 →
        runDays env (day :: rest) st
          = { st with logs := st.logs ++ [LogLine.quotaBreached st.remaining_reqs] })
    ∧ (∀ (π : Type) (q : Nat → Int) (p : Nat → π) (q0 : Int) (s e k : Nat),
        400 < q0 → 1 ≤ k → k ≤ (time_list s e).length →
        (∀ i, i + 1 < k → 400 < q ((time_list s e).getD i 0)) →
        q ((time_list s e).getD (k - 1) 0) ≤ 400 →
        (fullRun (goodEnv q p) q0 s e).store.length = k
        ∧ (fullRun (goodEnv q p) q0 s e).fetches.map Prod.fst = (time_list s e).take k) := by
  constructor
  · intro π env day rest st h
    simp [runDays, h]
  · intro π q p q0 s e k hq0 h1 hk hmid hstop
    have htake := takenDays_eq_take q (time_list s e) q0 k h1 hk hq0 hmid hstop
    obtain ⟨hs, hf, _⟩ := runDays_goodEnv q p (time_list s e)
      (⟨q0, q0, 0, [], [], [], [LogLine.pullingDays (time_list s e).length]⟩ : RunState π)
    constructor
    · simp only [fullRun]
      simp [hs, htake, List.length_take]
      omega
    · simp only [fullRun]
      simp [hf, htake]
      rw [show (Prod.fst ∘ fun d : Nat => (d, oddsDateFormat d)) = id from rfl, List.map_id]

/-- Witness for C2 at concrete inputs: a breaker check at quota 300 stops
a one-day loop cold, and a three-day no-failure run whose quota drops to
the floor after its second day persists exactly two artifacts. -/
theorem C2_quota_breaker_witness :
    runDays (⟨fun _ => none, fun _ => true⟩ : Env Nat) [0] (initState 300)
      = { initState (π := Nat) 300 with logs := [LogLine.quotaBreached 300] }
    ∧ (fullRun (goodEnv (fun d => if d = 11 then 400 else 500) (fun _ => (0 : Nat)))
        500 10 12).store.length = 2 := by
  constructor
  · have h := C2_quota_breaker.1 Nat ⟨fun _ => none, fun _ => true⟩ 0 [] (initState 300)
      (by decide)
    simpa using h
  · refine (C2_quota_breaker.2 Nat (fun d => if d = 11 then 400 else 500) (fun _ => 0)
      500 10 12 2 (by decide) (by decide) (by decide)
      (fun i hi => by
        have h0 : i = 0 := by omega
        subst h0
        decide)
      (by decide)).1

/-- An environment in which the first five days of the 2023-01-15..21
range fail with a network error and the remaining days return HTTP 200
with header 450 and payload 0. -/
def envFiveFailures : Env Nat :=
  ⟨fun d => if d ≤ 738539 then none else some ⟨200, some 450, some 0⟩, fun _ => true⟩

/-- C3: the claim says that once the error counter reaches the ceiling
(5) the loop stops fetching and persisting.  The code only logs: over
2023-01-15..2023-01-21, after five failed days the counter is 5, the
breach is logged at each later day — including the line announcing that
the process stops — yet days six and seven are still fetched and their
payloads persisted. -/
theorem C3_error_ceiling_does_not_stop :
    (fullRun envFiveFailures 500 738535 738541).number_errors = 5
    ∧ (fullRun envFiveFailures 500 738535 738541).fetches.map Prod.fst
        = [738535, 738536, 738537, 738538, 738539, 738540, 738541]
    ∧ (fullRun envFiveFailures 500 738535 738541).store.length = 2
    ∧ LogLine.errorCeiling 738540 ∈ (fullRun envFiveFailures 500 738535 738541).logs
    ∧ LogLine.stoppingProcess 738540 ∈ (fullRun envFiveFailures 500 738535 738541).logs
    ∧ LogLine.persistSuccess 738541 ∈ (fullRun envFiveFailures 500 738535 738541).logs := by
  refine ⟨by decide, by decide, by decide, by decide, by decide, by decide⟩

/-- C4: over a range with `start_dt ≤ end_dt`, no failures and quota
always above the floor, the visited dates are exactly the contiguous
inclusive ordinal sequence from start to end, of length
`end - start + 1`, in ascending order, and exactly one artifact per date
is persisted, in that order. -/
theorem C4_full_range_persists_all (π : Type) (q : Nat → Int) (p : Nat → π)
    (q0 : Int) (s e : Nat) (hse : s ≤ e) (hq0 : 400 < q0) (hq : ∀ d, 400 < q d) :
    (time_list s e).length = e - s + 1
    ∧ (∀ i, i < (time_list s e).length → (time_list s e).getD i 0 = s + i)
    ∧ (fullRun (goodEnv q p) q0 s e).store
        = (time_list s e).map (fun d => (nbaPath d, some (p d)))
    ∧ (fullRun (goodEnv q p) q0 s e).fetches.map Prod.fst = time_list s e
    ∧ (fullRun (goodEnv q p) q0 s e).number_errors = 0 := by
  have hall := takenDays_all (q := q) (time_list s e) q0 hq0 (fun d _ => hq d)
  obtain ⟨hs, hf, he⟩ := runDays_goodEnv q p (time_list s e)
    (⟨q0, q0, 0, [], [], [], [LogLine.pullingDays (time_list s e).length]⟩ : RunState π)
  refine ⟨?_, ?_, ?_, ?_, ?_⟩
  · simp [time_list, List.length_range']
    omega
  · intro i hi
    rw [List.getD_eq_getElem _ _ hi]
    simp [time_list, List.getElem_range'_1]
  · simp only [fullRun]
    simp [hs, hall]
  · simp only [fullRun]
    simp [hf, hall]
    rw [show (Prod.fst ∘ fun d : Nat => (d, oddsDateFormat d)) = id from rfl, List.map_id]
  · simp only [fullRun]
    simp [he]

/-- Witness for C4 over the three-day range with ordinals 10..12, header
constantly 500 and payload constantly 7. -/
theorem C4_full_range_persists_all_witness :
    (time_list 10 12).length = 12 - 10 + 1
    ∧ (fullRun (goodEnv (fun _ => (500 : Int)) (fun _ => (7 : Nat))) 500 10 12).store
        = (time_list 10 12).map (fun d => (nbaPath d, some 7)) := by
  have h := C4_full_range_persists_all Nat (fun _ => (500 : Int)) (fun _ => (7 : Nat))
    500 10 12 (by decide) (by decide) (fun d => by norm_num)
  exact ⟨h.1, h.2.2.1⟩

/-- C5: key and timestamp derivation is deterministic: for the date
2023-01-15 (ordinal 738535) the blob key is
`odds_data/raw_data/nba/nba_2023-01-15.json` and the timestamp argument
is `2023-01-15T12:00:00Z`; and in every run, every fetch receives as
timestamp the ISO date of its day suffixed with `T12:00:00Z`. -/
theorem C5_key_timestamp_derivation :
    toordinal 2023 1 15 = 738535
    ∧ nbaPath 738535 = "odds_data/raw_data/nba/nba_2023-01-15.json"
    ∧ oddsDateFormat 738535 = "2023-01-15T12:00:00Z"
    ∧ ∀ (π : Type) (env : Env π) (q0 : Int) (s e d : Nat) (ts : String),
        (d, ts) ∈ (fullRun env q0 s e).fetches → ts = isoDate d ++ "T12:00:00Z" := by
  refine ⟨by decide, by decide, by decide, ?_⟩
  intro π env q0 s e d ts h
  simp only [fullRun] at h
  have hmem := runDays_fetch_ts env (time_list s e)
    (⟨q0, q0, 0, [], [], [], [LogLine.pullingDays (time_list s e).length]⟩ : RunState π)
    (d, ts) (by simpa using h)
  rcases hmem with hin | hts
  · simp at hin
  · exact hts

/-- Witness for C5: in a one-day run over 2023-01-15 the fetch trace
contains exactly the claimed timestamp, and the general statement applied
to it reproduces the suffix form. -/
theorem C5_key_timestamp_derivation_witness :
    "2023-01-15T12:00:00Z" = isoDate 738535 ++ "T12:00:00Z" := by
  exact C5_key_timestamp_derivation.2.2.2 Nat ⟨fun _ => none, fun _ => true⟩ 500
    738535 738535 738535 "2023-01-15T12:00:00Z" (by decide)

/-- C6 counterexample: the claim says nothing inside the loop is retried
and the blob-store persist runs at most once per day; but `load_json`
carries `@retry(times=5)`, so with an S3 put that keeps failing a single
`load_json` call executes the put six times. -/
theorem C6_persist_retry_counterexample :
    load_json_put_attempts (fun _ => Except.error ()) = 6
    ∧ ¬ load_json_put_attempts (fun _ => Except.error ()) ≤ 1 := by
  constructor <;> decide

/-- C6 amended: per day the loop issues at most one fetch and at most one
`load_json` call, but `load_json` itself automatically re-runs the
underlying put on failure — up to 5 swallowed attempts plus one final
unguarded call, hence at most 6 put executions per day. -/
theorem C6_at_most_once_amended :
    (∀ (π : Type) (env : Env π) (q0 : Int) (s e d : Nat),
        ((fullRun env q0 s e).fetches.map Prod.fst).count d ≤ 1
        ∧ (fullRun env q0 s e).persistCalls.count d ≤ 1)
    ∧ (∀ f : Nat → Except Unit Unit, load_json_put_attempts f ≤ 6) := by
  constructor
  · intro π env q0 s e d
    obtain ⟨lf, lp, h1, h2, h3, h4⟩ := runDays_calls_sublist env (time_list s e)
      (⟨q0, q0, 0, [], [], [], [LogLine.pullingDays (time_list s e).length]⟩ : RunState π)
    have hnd : (time_list s e).Nodup := List.nodup_range' _ _
    have hcount := List.nodup_iff_count_le_one.mp hnd d
    constructor
    · simp only [fullRun]
      rw [h1]
      simpa using le_trans (h3.count_le d) hcount
    · simp only [fullRun]
      rw [h2]
      simpa using le_trans (h4.count_le d) hcount
  · intro f
    exact retryGoCalls_le f 5 0

/-- C7 counterexample: a 200 response carrying `X-Requests-Remaining: 42`
whose body fails to deserialize makes `get_data` raise at
`response.json()` before the header is read, so the counter keeps its
previous value 7 instead of being updated to 42 — refuting the claim that
every returned response updates the counter. -/
theorem C7_deserialization_skips_update :
    (get_data (π := Nat) ⟨200, some 42, none⟩ 7).1 = 7
    ∧ (get_data (π := Nat) ⟨200, some 42, none⟩ 7).2 = Except.error ()
    ∧ (7 : Int) ≠ 42 := by
  refine ⟨rfl, rfl, by decide⟩

/-- C7 amended: non-2xx responses with the header present update the
counter and return `None`; 2xx responses update it only after the body
deserializes, returning the payload; a missing header makes the call
raise with the counter unchanged; and a 2xx response with an
undeserializable body raises before the header is read, also leaving the
counter unchanged. -/
theorem C7_quota_update_amended :
    ∀ (π : Type) (r : Response π) (st q : Int) (p : π),
      (r.statusCode ≠ 200 → r.requestsRemainingHeader = some q →
        get_data r st = (q, Except.ok none))
      ∧ (r.statusCode = 200 → r.body = some p → r.requestsRemainingHeader = some q →
          get_data r st = (q, Except.ok (some p)))
      ∧ (r.requestsRemainingHeader = none → get_data r st = (st, Except.error ()))
      ∧ (r.statusCode = 200 → r.body = none → get_data r st = (st, Except.error ())) := by
  intro π r st q p
  refine ⟨?_, ?_, ?_, ?_⟩
  · intro hst hh; simp [get_data, hst, hh]
  · intro hst hb hh; simp [get_data, hst, hb, hh]
  · intro hh
    by_cases hst : r.statusCode = 200
    · cases hb : r.body <;> simp [get_data, hst, hb, hh]
    · simp [get_data, hst, hh]
  · intro hst hb; simp [get_data, hst, hb]

/-- Witness for C7 amended, applying each case at a concrete response:
HTTP 500 with header 450 (counter updated, `None` returned), HTTP 200
with header 450 and payload 3 (counter updated, payload returned), HTTP
200 without header (raises, counter kept), HTTP 200 with bad body
(raises, counter kept). -/
theorem C7_quota_update_amended_witness :
    get_data (π := Nat) ⟨500, some 450, none⟩ 7 = (450, Except.ok none)
    ∧ get_data (π := Nat) ⟨200, some 450, some 3⟩ 7 = (450, Except.ok (some 3))
    ∧ get_data (π := Nat) ⟨200, none, some 3⟩ 7 = (7, Except.error ())
    ∧ get_data (π := Nat) ⟨200, some 450, none⟩ 7 = (7, Except.error ()) := by
  refine ⟨(C7_quota_update_amended Nat ⟨500, some 450, none⟩ 7 450 0).1 (by decide) rfl,
    (C7_quota_update_amended Nat ⟨200, some 450, some 3⟩ 7 450 3).2.1 rfl rfl rfl,
    (C7_quota_update_amended Nat ⟨200, none, some 3⟩ 7 0 3).2.2.1 rfl,
    (C7_quota_update_amended Nat ⟨200, some 450, none⟩ 7 450 0).2.2.2 rfl rfl⟩

/-- C8: re-running the loop over the same range against the same upstream
responses replays exactly the same keyed overwrites, so applying the
run's writes a second time leaves every key of the blob store exactly as
one application left it. -/
theorem C8_rerun_idempotent (π : Type) (env : Env π) (q0 : Int) (s e : Nat)
    (σ : String → Option (Option π)) (k : String) :
    applyWrites (fullRun env q0 s e).store (applyWrites (fullRun env q0 s e).store σ) k
      = applyWrites (fullRun env q0 s e).store σ k :=
  applyWrites_idem _ _ _

/-- C9: the `retry` decorator with parameter `times` invokes the wrapped
function at most `times + 1` times; it returns the first success
immediately after exactly `j + 1` invocations when the `j`-th invocation
(zero-based, within the guarded attempts) is the first success; and when
all `times` guarded attempts fail it makes one final unguarded call whose
result — exception included — is the caller's. -/
theorem C9_retry_bounds (E A : Type) (times : Nat) (f : Nat → Except E A) :
    retryNumCalls times f ≤ times + 1
    ∧ (∀ (j : Nat) (a : A), j < times →
        (∀ t, t < j → ∃ er, f t = Except.error er) →
        f j = Except.ok a →
        retryCall times f = Except.ok a ∧ retryNumCalls times f = j + 1)
    ∧ ((∀ t, t < times → ∃ er, f t = Except.error er) →
        retryCall times f = f times ∧ retryNumCalls times f = times + 1) := by
  refine ⟨retryGoCalls_le f times 0, ?_, ?_⟩
  · intro j a hj herr hok
    exact retryGo_first_ok f times 0 j a hj
      (fun t ht => by simpa using herr t ht) (by simpa using hok)
  · intro herr
    have h := retryGo_all_fail f times 0 (fun t ht => by simpa using herr t ht)
    constructor
    · rw [retryCall, h.1]; norm_num
    · exact h.2

/-- Witness for C9: a function failing twice then succeeding is retried
to success in 3 invocations, and an always-failing function is invoked
exactly 6 times under `times = 5`, its final error propagating. -/
theorem C9_retry_bounds_witness :
    retryNumCalls 5 (fun i => if i < 2 then Except.error () else Except.ok (37 : Nat)) ≤ 6
    ∧ retryCall 5 (fun i => if i < 2 then Except.error () else Except.ok (37 : Nat))
        = Except.ok 37
    ∧ retryNumCalls 5 (fun i => if i < 2 then Except.error () else Except.ok (37 : Nat)) = 3
    ∧ retryCall 5 (fun _ => (Except.error () : Except Unit Nat)) = Except.error ()
    ∧ retryNumCalls 5 (fun _ => (Except.error () : Except Unit Nat)) = 6 := by
  have h := C9_retry_bounds Unit Nat 5
    (fun i => if i < 2 then Except.error () else Except.ok (37 : Nat))
  have hok := h.2.1 2 37 (by omega) (fun t ht => ⟨(), by simp [ht]⟩) (by norm_num)
  have h2 := C9_retry_bounds Unit Nat 5 (fun _ => (Except.error () : Except Unit Nat))
  have hfail := h2.2.2 (fun t _ => ⟨(), rfl⟩)
  exact ⟨h.1, hok.1, hok.2, hfail.1, hfail.2⟩

/-- C10: with an inverted range (`end_dt < start_dt`) the day list is
empty, so the run fetches nothing, persists nothing, leaves both counters
at their initial value and the error count at 0, and terminates normally
having logged only the opening line (for 0 days) and the completion
line. -/
theorem C10_inverted_range_noop (π : Type) (env : Env π) (q0 : Int) (s e : Nat)
    (h : e < s) :
    time_list s e = []
    ∧ fullRun env q0 s e
        = (⟨q0, q0, 0, [], [], [],
            [LogLine.pullingDays 0, LogLine.processCompleted]⟩ : RunState π) := by
  have hlen : e + 1 - s = 0 := by omega
  have ht : time_list s e = [] := by simp [time_list, hlen]
  refine ⟨ht, ?_⟩
  simp [fullRun, ht, runDays]

/-- Witness for C10 at the inverted range 5..3 (as ordinals). -/
theorem C10_inverted_range_noop_witness :
    time_list 5 3 = []
    ∧ fullRun (⟨fun _ => none, fun _ => true⟩ : Env Nat) 500 5 3
        = (⟨500, 500, 0, [], [], [],
            [LogLine.pullingDays 0, LogLine.processCompleted]⟩ : RunState Nat) :=
  C10_inverted_range_noop Nat ⟨fun _ => none, fun _ => true⟩ 500 5 3 (by decide)

end BetterBets
